import Mathlib

/-!
Verification development for the plasma-mvp exit-game settlement engine.

The repository sources under verification are:
  * `src/tests/root_chain/contracts/test_root_chain.py` — the UTXO position
    codec helpers (`encode_utxo_pos`, `decode_utxo_pos`) and the behaviour the
    tests pin down for the root-chain contract;
  * `src/plasma/root_chain/deployer.py` and `src/plasma/rootchain/deployer.py`
    — the two build/deploy modules.

The root-chain contract itself is not part of the sources, so the settlement
ledger (deposit / submitBlock / startDepositExit / startExit / challengeExit /
finalizeExits) is modelled from the specification, as marked on each
definition.
-/

/- ================================================================
   Part 1: the UTXO position codec of test_root_chain.py.
   ================================================================ -/

/-- Function `encode_utxo_pos` from test_root_chain.py:
`(blknum * 1000000000) + (txindex * 10000) + (oindex * 1)`. -/
def encode_utxo_pos (blknum txindex oindex : ℕ) : ℕ :=
  blknum * 1000000000 + txindex * 10000 + oindex * 1

/-- Round `a / b` to the nearest integer, ties to even — the rounding rule
binary64 arithmetic applies to the quotient's mantissa. -/
def rndiv (a b : ℕ) : ℕ :=
  if 2 * (a % b) < b then a / b
  else if b < 2 * (a % b) then a / b + 1
  else if (a / b) % 2 = 0 then a / b else a / b + 1

/-- Fuel-indexed base-2 logarithm (structural recursion, so that concrete
instances reduce in the kernel). -/
def lg2F : ℕ → ℕ → ℕ
  | 0, _ => 0
  | fuel + 1, n => if 2 ≤ n then lg2F fuel (n / 2) + 1 else 0

/-- Here `lg2 n = ⌊log₂ n⌋` for `n ≥ 1`. -/
def lg2 (n : ℕ) : ℕ := lg2F n n

theorem lg2F_spec : ∀ fuel n, 0 < n → n ≤ fuel →
    2 ^ lg2F fuel n ≤ n ∧ n < 2 ^ (lg2F fuel n + 1) := by
  intro fuel
  induction fuel with
  | zero => intro n h1 h2; omega
  | succ f ih =>
    intro n h1 h2
    by_cases h : 2 ≤ n
    · have hrec := ih (n / 2) (by omega) (by omega)
      simp only [lg2F, if_pos h]
      constructor
      · have he : 2 ^ (lg2F f (n / 2) + 1) = 2 * 2 ^ lg2F f (n / 2) := by ring
        rw [he]; omega
      · have he : 2 ^ (lg2F f (n / 2) + 1 + 1) = 2 * 2 ^ (lg2F f (n / 2) + 1) := by
          ring
        rw [he]; omega
    · simp only [lg2F, if_neg h]; omega

theorem lg2_spec (n : ℕ) (h : 0 < n) : 2 ^ lg2 n ≤ n ∧ n < 2 ^ (lg2 n + 1) :=
  lg2F_spec n n h le_rfl

/-- Truncated float division `int(a / b)` as Python 3 evaluates it: the true quotient `a / b` is
correctly rounded to a binary64 value (round to nearest, ties to even), then
truncated to an integer.  The exponent is modelled as unbounded, which agrees
with binary64 whenever the quotient is below `2^1024` (no overflow; every
quotient in this file is far below that bound). -/
def ifdiv (a b : ℕ) : ℕ :=
  if b = 0 then 0
  else if a < b then 0
  else if lg2 (a / b) ≤ 52 then
    rndiv (a * 2 ^ (52 - lg2 (a / b))) b / 2 ^ (52 - lg2 (a / b))
  else
    rndiv a (b * 2 ^ (lg2 (a / b) - 52)) * 2 ^ (lg2 (a / b) - 52)

/-- Function `decode_utxo_pos` from test_root_chain.py, with Python's float divisions
`int(utxo_pos / 1000000000)` and `int((utxo_pos % 1000000000) / 10000)`
modelled by `ifdiv`; the final `oindex` line is plain integer arithmetic and
may go negative, hence `ℤ`. -/
def decode_utxo_pos (utxo_pos : ℕ) : ℕ × ℕ × ℤ :=
  (ifdiv utxo_pos 1000000000,
   ifdiv (utxo_pos % 1000000000) 10000,
   (utxo_pos : ℤ) - (ifdiv utxo_pos 1000000000 : ℤ) * 1000000000
     - (ifdiv (utxo_pos % 1000000000) 10000 : ℤ) * 10000)

theorem rndiv_ge (a b : ℕ) : a / b ≤ rndiv a b := by
  unfold rndiv
  split
  · omega
  · split
    · omega
    · split <;> omega

theorem rndiv_le (a b : ℕ) : rndiv a b ≤ a / b + 1 := by
  unfold rndiv
  split
  · omega
  · split
    · omega
    · split <;> omega

/-- Where the float-based truncated division agrees with exact floor division:
if the remainder `c` is small relative to the divisor (`2c < b`) and the
quotient `k` is below `2^51`, binary64 rounding never crosses an integer
boundary. -/
theorem ifdiv_floor (b k c : ℕ) (hb : 0 < b) (hc : 2 * c < b) (hk : k < 2 ^ 51) :
    ifdiv (k * b + c) b = k := by
  rcases Nat.eq_zero_or_pos k with hk0 | hkpos
  · subst hk0
    have hz : 0 * b + c = c := by omega
    rw [hz]
    unfold ifdiv
    rw [if_neg (by omega), if_pos (by omega)]
  · have hbk : b ≤ k * b := Nat.le_mul_of_pos_left b hkpos
    have hdiv : (k * b + c) / b = k := by
      rw [Nat.add_comm, Nat.add_mul_div_right _ _ hb, Nat.div_eq_of_lt (by omega)]
      omega
    have hlg := lg2_spec k hkpos
    have hn : lg2 k ≤ 50 := by
      by_contra hcon
      have h51 : (2:ℕ) ^ 51 ≤ 2 ^ lg2 k := Nat.pow_le_pow_right (by omega) (by omega)
      omega
    unfold ifdiv
    rw [if_neg (by omega), if_neg (by omega), hdiv, if_pos (by omega)]
    obtain ⟨t, ht⟩ : ∃ t, 52 - lg2 k = t + 2 := ⟨50 - lg2 k, by omega⟩
    rw [ht]
    have hq : c * 2 ^ (t + 2) / b < 2 ^ (t + 1) := by
      have hp : 0 < (2:ℕ) ^ (t + 1) := Nat.pow_pos (by omega)
      have h1 : 2 * c * 2 ^ (t + 1) < b * 2 ^ (t + 1) :=
        mul_lt_mul_of_pos_right hc hp
      have hlt : c * 2 ^ (t + 2) < b * 2 ^ (t + 1) := by
        calc c * 2 ^ (t + 2) = 2 * c * 2 ^ (t + 1) := by ring
          _ < b * 2 ^ (t + 1) := h1
      exact Nat.div_lt_of_lt_mul hlt
    have hN : (k * b + c) * 2 ^ (t + 2) = c * 2 ^ (t + 2) + k * 2 ^ (t + 2) * b := by
      ring
    have hdN : (k * b + c) * 2 ^ (t + 2) / b = c * 2 ^ (t + 2) / b + k * 2 ^ (t + 2) := by
      rw [hN, Nat.add_mul_div_right _ _ hb]
    have hge := rndiv_ge ((k * b + c) * 2 ^ (t + 2)) b
    have hle := rndiv_le ((k * b + c) * 2 ^ (t + 2)) b
    rw [hdN] at hge hle
    apply Nat.div_eq_of_lt_le
    · exact le_trans (Nat.le_add_left _ _) hge
    · have hub : c * 2 ^ (t + 2) / b + k * 2 ^ (t + 2) + 1 < (k + 1) * 2 ^ (t + 2) := by
        have hexp : (k + 1) * 2 ^ (t + 2) =
            k * 2 ^ (t + 2) + 2 ^ (t + 1) + 2 ^ (t + 1) := by ring
        have hp1 : 1 ≤ (2:ℕ) ^ (t + 1) := Nat.one_le_two_pow
        omega
      omega

/-- The exact round-trip the specification demands does hold for the float
based decoder on all block numbers small enough that binary64 rounding of the
quotient is exact (in particular for every block number below `2^51`). -/
theorem decode_encode_exact_below_2pow51 (b t o : ℕ)
    (hb : b < 2 ^ 51) (ht : t < 10000) (ho : o < 10) :
    decode_utxo_pos (encode_utxo_pos b t o) = (b, t, (o : ℤ)) := by
  have hpos : encode_utxo_pos b t o = b * 1000000000 + (t * 10000 + o) := by
    unfold encode_utxo_pos; omega
  have hblk : ifdiv (encode_utxo_pos b t o) 1000000000 = b := by
    rw [hpos]
    exact ifdiv_floor 1000000000 b (t * 10000 + o) (by omega) (by omega) hb
  have hmod : encode_utxo_pos b t o % 1000000000 = t * 10000 + o := by
    unfold encode_utxo_pos; omega
  have htx : ifdiv (encode_utxo_pos b t o % 1000000000) 10000 = t := by
    rw [hmod]
    exact ifdiv_floor 10000 t o (by omega) (by omega) (by omega)
  have hz : (↑(b * 1000000000 + (t * 10000 + o)) : ℤ) - ↑b * 1000000000
      - ↑t * 10000 = (o : ℤ) := by
    push_cast
    ring
  unfold decode_utxo_pos
  rw [hblk, htx, hpos, hz]

/- ================================================================
   Part 2: the Merkle commitment layer, transaction codec and
   settlement ledger.  The root-chain contract is not among the
   sources, so these are modelled from the specification.
   ================================================================ -/

/-- Addresses of the base ledger, abstracted. -/
abbrev Address := ℕ

/-- Modelled from the spec: an input slot of a transaction, `{ position,
owner }`; unused slots are zero-filled. -/
structure TxInput where
  pos : ℕ
  owner : Address
deriving DecidableEq

/-- Modelled from the spec: an output slot of a transaction, `{ owner,
value }`; unused slots are zero-filled. -/
structure TxOutput where
  owner : Address
  value : ℕ
deriving DecidableEq

/-- Modelled from the spec: a transaction with up to two inputs and two
outputs, a currency designator and reserved metadata. -/
structure Tx where
  in1 : TxInput
  in2 : TxInput
  out1 : TxOutput
  out2 : TxOutput
  currency : Address
  meta : ℕ
deriving DecidableEq

/-- Modelled from the spec: hashes form a free algebra, so two hashes are
equal exactly when they were built the same way — the standard symbolic model
of a collision-free hash.  `depositLeaf` is the content hash of the synthetic
single-output deposit transaction, `txLeaf` the content hash of a
transaction's unsigned canonical encoding, `node` the pairwise combine
function of the Merkle layer, `defaultLeaf` the fixed padding leaf and
`rawDigest` an arbitrary operator-chosen digest. -/
inductive Hash where
  | defaultLeaf : Hash
  | depositLeaf (owner : Address) (value : ℕ) : Hash
  | txLeaf (tx : Tx) : Hash
  | node (l r : Hash) : Hash
  | rawDigest (n : ℕ) : Hash
deriving DecidableEq

/-- The error taxonomy of the specification (§7); `Conflict` also covers the
out-of-order block-slot case. -/
inductive Err where
  | CapacityExceeded
  | MalformedTransaction
  | InclusionProofFailure
  | AuthorizationFailure
  | PrematureAction
  | Conflict
  | NotFound
deriving DecidableEq

/-- Modelled from the spec: the fixed combine function of the Merkle layer. -/
def combine (l r : Hash) : Hash := Hash.node l r

/-- Modelled from the spec: right-pad a leaf sequence with the default leaf
up to `n` entries. -/
def padTo (leaves : List Hash) (n : ℕ) : List Hash :=
  leaves ++ List.replicate (n - leaves.length) Hash.defaultLeaf

/-- Modelled from the spec: combine one level of the tree pairwise. -/
def foldLevel : List Hash → List Hash
  | a :: b :: rest => combine a b :: foldLevel rest
  | l => l

/-- Modelled from the spec: fold `depth` levels bottom-up. -/
def buildRootAux : ℕ → List Hash → Hash
  | 0, l => l.headD Hash.defaultLeaf
  | d + 1, l => buildRootAux d (foldLevel l)

/-- Modelled from the spec: `buildRoot(leaves, depth)` pads the leaves to
`2^depth` and folds pairwise bottom-up; fails with `CapacityExceeded` when
more than `2^depth` leaves are supplied. -/
def buildRoot (leaves : List Hash) (depth : ℕ) : Except Err Hash :=
  if 2 ^ depth < leaves.length then .error .CapacityExceeded
  else .ok (buildRootAux depth (padTo leaves (2 ^ depth)))

/-- Modelled from the spec: recompute a root from a leaf hash and a sibling
path, combining left/right according to the bit pattern of `index`. -/
def rootFromProof (leaf : Hash) (index : ℕ) : List Hash → Hash
  | [] => leaf
  | sib :: rest =>
      rootFromProof (if index % 2 = 0 then combine leaf sib else combine sib leaf)
        (index / 2) rest

/-- Modelled from the spec: `verifyMembership` recomputes the root from the
leaf and the proof and compares with the committed root; the proof length
must equal the depth exactly. -/
def verifyMembership (root : Hash) (depth index : ℕ) (leaf : Hash)
    (proof : List Hash) : Bool :=
  decide (proof.length = depth) && decide (rootFromProof leaf index proof = root)

/-- Modelled from the spec: a signature is a signer's attestation over one
specific hash — the symbolic model of an ECDSA signature. -/
structure Sig where
  signer : Address
  signed : Hash
deriving DecidableEq

/-- Modelled from the spec: `recoverSigner` returns the signer when the
signature is over the given hash, and fails otherwise. -/
def recoverSigner (h : Hash) (s : Sig) : Option Address :=
  if s.signed = h then some s.signer else none

/-- Modelled from the spec: transaction bytes either decode back to the
transaction they encode or are malformed. -/
inductive TxBytes where
  | valid (tx : Tx) : TxBytes
  | malformed (junk : ℕ) : TxBytes
deriving DecidableEq

/-- Modelled from the spec: `decode(bytes)`, failing with
`MalformedTransaction` on anything that is not a canonical encoding. -/
def decodeTx : TxBytes → Except Err Tx
  | .valid tx => .ok tx
  | .malformed _ => .error .MalformedTransaction

/-- Modelled from the spec: `contentHash(tx)`, the Merkle leaf and signing
message of a transaction. -/
def contentHash (tx : Tx) : Hash := Hash.txLeaf tx

/-- Modelled from the spec: the output slot of a transaction selected by an
output index (slot 0 or slot 1). -/
def outputAt (tx : Tx) (oindex : ℕ) : TxOutput :=
  if oindex = 0 then tx.out1 else tx.out2

/-- The block-number stride between regular child blocks. -/
def stride : ℕ := 1000

/-- The fixed depth of the Merkle commitment tree. -/
def treeDepth : ℕ := 16

/-- Modelled from the spec: the confirmation margin, in subsequently
submitted regular blocks, an input's containing block must have before the
input may support an exit. -/
def confirmationMargin : ℕ := 3

/-- The challenge period (two weeks, in seconds). -/
def challengePeriod : ℕ := 1209600

/-- Modelled from the spec: a committed block — a digest and the timestamp at
which it was stored. -/
structure Block where
  digest : Hash
  timestamp : ℕ
deriving DecidableEq

/-- Modelled from the spec: an exit record, keyed by its packed position. -/
structure ExitRecord where
  owner : Address
  value : ℕ
  position : ℕ
  exitableAt : ℕ
  voided : Bool
deriving DecidableEq

/-- Association-list lookup (first match wins), used for all keyed state. -/
def alookup {κ β : Type} [DecidableEq κ] (k : κ) : List (κ × β) → Option β
  | [] => none
  | (k', v) :: rest => if k = k' then some v else alookup k rest

/-- Modelled from the spec: the full settlement-ledger state.  `blocks` and
`exitList` are keyed association lists; `depositRecords` retains each deposit
block's sole output so `startDepositExit` can reconstruct it; `escrow` is the
engine-held balance; `paid` is the append-only log of payouts made by
`finalizeExits`; `now` is the externally supplied, monotonically
non-decreasing call-time clock. -/
structure ChainState where
  blocks : List (ℕ × Block)
  exitList : List (ℕ × ExitRecord)
  depositRecords : List (ℕ × (Address × ℕ))
  escrow : ℕ
  paid : List (Address × ℕ)
  currentChildBlock : ℕ
  currentDepositBlock : ℕ
  authority : Address
  now : ℕ
deriving DecidableEq

/-- The ledger state at contract deployment. -/
def initialState (authority : Address) : ChainState :=
  ⟨[], [], [], 0, [], stride, 1, authority, 0⟩

/-- Advance the external clock (the base ledger's timestamp). -/
def advanceTime (d : ℕ) (st : ChainState) : ChainState :=
  { st with now := st.now + d }

/-- Modelled from the spec: the block number the next deposit will occupy —
the next free slot between the last submitted regular block and the upcoming
one. -/
def depositBlockNumber (st : ChainState) : ℕ :=
  st.currentChildBlock - stride + st.currentDepositBlock

/-- Modelled from the spec: exact integer decoding of a packed position, as
the settlement engine performs it (`blockNumber * 10^9 + txIndex * 10^4 +
outputIndex`). -/
def decodePosExact (pos : ℕ) : ℕ × ℕ × ℕ :=
  (pos / 1000000000, pos % 1000000000 / 10000, pos % 10000)

/-- Modelled from the spec: `deposit(owner, value)` credits Escrow, allocates
the next deposit-block slot and stores a single-leaf block over the content
hash of the synthetic transaction `{ outputs: [(owner, value)] }`, timestamped
with the call time. -/
def deposit (sender : Address) (value : ℕ) (st : ChainState) :
    Except Err ℕ × ChainState :=
  if st.currentDepositBlock < stride then
    match buildRoot [Hash.depositLeaf sender value] treeDepth with
    | .error e => (.error e, st)
    | .ok d =>
        let blk := depositBlockNumber st
        (.ok blk,
         { st with
            blocks := (blk, ⟨d, st.now⟩) :: st.blocks
            depositRecords := (blk, (sender, value)) :: st.depositRecords
            escrow := st.escrow + value
            currentDepositBlock := st.currentDepositBlock + 1 })
  else (.error .Conflict, st)

/-- Modelled from the spec: `submitBlock(digest, blockNumber)` — operator
only; stores the digest at the next expected regular slot or rejects the call
(`Conflict` covers the out-of-order case in the spec's taxonomy). -/
def submitBlock (sender : Address) (digest : Hash) (blockNumber : ℕ)
    (st : ChainState) : Except Err Unit × ChainState :=
  if sender = st.authority then
    if blockNumber = st.currentChildBlock then
      (.ok (),
       { st with
          blocks := (blockNumber, ⟨digest, st.now⟩) :: st.blocks
          currentChildBlock := st.currentChildBlock + stride
          currentDepositBlock := 1 })
    else (.error .Conflict, st)
  else (.error .AuthorizationFailure, st)

/-- Modelled from the spec: `startDepositExit(depositBlockNumber)` looks up
the deposit block, reconstructs its sole output, and creates the exit record
at position `(depositBlockNumber, 0, 0)` with `exitableAt = now +
ChallengePeriod`; `Conflict` if a record already exists there. -/
def startDepositExit (sender : Address) (blk : ℕ) (st : ChainState) :
    Except Err Unit × ChainState :=
  match alookup blk st.depositRecords with
  | none => (.error .NotFound, st)
  | some (owner, value) =>
      let pos := encode_utxo_pos blk 0 0
      match alookup pos st.exitList with
      | some _ => (.error .Conflict, st)
      | none =>
          (.ok (),
           { st with
              exitList :=
                (pos, ⟨owner, value, pos, st.now + challengePeriod, false⟩)
                  :: st.exitList })

/-- Modelled from the spec: the proof bundle supplied for one input slot of
`startExit` — the input transaction's bytes, its inclusion proof, and its
signature bundle (carried per the surface signature; the engine checks the
exiting transaction's own signatures). -/
structure InputProof where
  txB : TxBytes
  proof : List Hash
  sigs : Sig × Sig
deriving DecidableEq

/-- Modelled from the spec: the per-input validation of `startExit`.  An
empty (zero-filled) input slot is skipped.  Otherwise the referenced input
transaction is decoded, its inclusion at the input's own position is
verified, the claimed owner must match the input transaction's output at the
referenced slot, the corresponding signature over the exiting transaction's
content hash must recover to the claimed owner, and the input's containing
regular block must have the confirmation margin of subsequently submitted
blocks behind it (deposit blocks — numbers that are not multiples of the
stride — are not subject to the margin). -/
def checkInput (st : ChainState) (claimed : TxInput) (ip : InputProof)
    (sig : Sig) (exitHash : Hash) : Except Err Unit :=
  if claimed.pos = 0 then .ok ()
  else
    match decodeTx ip.txB with
    | .error e => .error e
    | .ok itx =>
        let iblk := (decodePosExact claimed.pos).1
        let iti := (decodePosExact claimed.pos).2.1
        let ioi := (decodePosExact claimed.pos).2.2
        match alookup iblk st.blocks with
        | none => .error .InclusionProofFailure
        | some ibl =>
            if verifyMembership ibl.digest treeDepth iti (contentHash itx) ip.proof then
              if (outputAt itx ioi).owner = claimed.owner then
                if recoverSigner exitHash sig = some claimed.owner then
                  if iblk % stride ≠ 0 ∨
                      iblk + confirmationMargin * stride ≤ st.currentChildBlock then
                    .ok ()
                  else .error .PrematureAction
                else .error .AuthorizationFailure
              else .error .AuthorizationFailure
            else .error .InclusionProofFailure

/-- Modelled from the spec: `startExit(position, txBytes, proof, sigs,
input1, input2)` — decodes the exiting transaction, verifies its inclusion at
`position` against the stored digest, validates each non-empty input slot
(inclusion, output match, signature, confirmation margin), rejects with
`Conflict` if a record already exists at `position`, and otherwise creates
the exit record from the exiting output, with `exitableAt = now +
ChallengePeriod`. -/
def startExit (sender : Address) (pos : ℕ) (txB : TxBytes) (proof : List Hash)
    (sigs : Sig × Sig) (ip1 ip2 : InputProof) (st : ChainState) :
    Except Err Unit × ChainState :=
  match decodeTx txB with
  | .error e => (.error e, st)
  | .ok tx =>
      let blk := (decodePosExact pos).1
      let ti := (decodePosExact pos).2.1
      let oi := (decodePosExact pos).2.2
      match alookup blk st.blocks with
      | none => (.error .InclusionProofFailure, st)
      | some bl =>
          if verifyMembership bl.digest treeDepth ti (contentHash tx) proof then
            match checkInput st tx.in1 ip1 sigs.1 (contentHash tx) with
            | .error e => (.error e, st)
            | .ok _ =>
                match checkInput st tx.in2 ip2 sigs.2 (contentHash tx) with
                | .error e => (.error e, st)
                | .ok _ =>
                    match alookup pos st.exitList with
                    | some _ => (.error .Conflict, st)
                    | none =>
                        let out := outputAt tx oi
                        (.ok (),
                         { st with
                            exitList :=
                              (pos,
                               ⟨out.owner, out.value, pos,
                                st.now + challengePeriod, false⟩)
                                :: st.exitList })
          else (.error .InclusionProofFailure, st)

/-- Mark the record at position `p` as voided. -/
def setVoided (l : List (ℕ × ExitRecord)) (p : ℕ) : List (ℕ × ExitRecord) :=
  l.map fun e => if e.1 = p then (e.1, { e.2 with voided := true }) else e

/-- Modelled from the spec: `challengeExit(exitingPosition, challengePosition,
txBytes, proof, sigs)` — requires a live (non-voided) record at
`exitingPosition` (`NotFound` otherwise), decodes and proves inclusion of the
challenge transaction at `challengePosition`, requires one of its inputs to
reference `exitingPosition` with a signature recovering to the exit's
recorded owner, and on success marks the record voided. -/
def challengeExit (sender : Address) (exitingPos challengePos : ℕ)
    (txB : TxBytes) (proof : List Hash) (sigs : Sig × Sig) (st : ChainState) :
    Except Err Unit × ChainState :=
  match alookup exitingPos st.exitList with
  | none => (.error .NotFound, st)
  | some r =>
      if r.voided then (.error .NotFound, st)
      else
        match decodeTx txB with
        | .error e => (.error e, st)
        | .ok ctx =>
            let cblk := (decodePosExact challengePos).1
            let cti := (decodePosExact challengePos).2.1
            match alookup cblk st.blocks with
            | none => (.error .InclusionProofFailure, st)
            | some bl =>
                if verifyMembership bl.digest treeDepth cti (contentHash ctx)
                    proof then
                  if (ctx.in1.pos = exitingPos ∧
                        recoverSigner (contentHash ctx) sigs.1 = some r.owner) ∨
                      (ctx.in2.pos = exitingPos ∧
                        recoverSigner (contentHash ctx) sigs.2 = some r.owner) then
                    (.ok (), { st with exitList := setVoided st.exitList exitingPos })
                  else (.error .AuthorizationFailure, st)
                else (.error .InclusionProofFailure, st)

/-- Modelled from the spec: one pass of `finalizeExits` over the (position
sorted) records: a record whose `exitableAt` has passed is paid out and
removed if non-voided, dropped without payout if voided; immature records are
left untouched.  Returns the remaining records, the payouts in scan order and
the total amount paid. -/
def finalizeScan (now : ℕ) :
    List (ℕ × ExitRecord) → List (ℕ × ExitRecord) × List (Address × ℕ) × ℕ
  | [] => ([], [], 0)
  | (p, r) :: rest =>
      let res := finalizeScan now rest
      if r.exitableAt ≤ now then
        if r.voided then res
        else (res.1, (r.owner, r.value) :: res.2.1, res.2.2 + r.value)
      else ((p, r) :: res.1, res.2.1, res.2.2)

/-- Modelled from the spec: `finalizeExits()` scans the live records in
ascending packed-position order (the ordered-index design of §9), paying each
matured non-voided record's value out of Escrow to its owner and removing the
record, dropping matured voided records without payout, and leaving immature
records untouched. -/
def finalizeExits (sender : Address) (st : ChainState) :
    Except Err Unit × ChainState :=
  let sorted := List.insertionSort (fun a b => a.1 ≤ b.1) st.exitList
  let res := finalizeScan st.now sorted
  (.ok (),
   { st with
      exitList := res.1
      paid := st.paid ++ res.2.1
      escrow := st.escrow - res.2.2 })

/-- The `exits(position)` read, exactly as the tests pin it down: a live
record answers `(owner, value)`, an empty position answers the default record
`(null, 0)` (test_root_chain.py line 200 asserts
`exits(pos) == [null_address, 0]` after a failed `startExit`). -/
def exits (st : ChainState) (pos : ℕ) : Address × ℕ :=
  match alookup pos st.exitList with
  | some r => (r.owner, r.value)
  | none => (0, 0)

/-- The surface calls of the settlement ledger (§6). -/
inductive Call where
  | deposit (sender : Address) (value : ℕ)
  | submitBlock (sender : Address) (digest : Hash) (blockNumber : ℕ)
  | startDepositExit (sender : Address) (blk : ℕ)
  | startExit (sender : Address) (pos : ℕ) (txB : TxBytes) (proof : List Hash)
      (sigs : Sig × Sig) (ip1 ip2 : InputProof)
  | challengeExit (sender : Address) (exitingPos challengePos : ℕ)
      (txB : TxBytes) (proof : List Hash) (sigs : Sig × Sig)
  | finalizeExits (sender : Address)

/-- Results returned by the surface calls. -/
inductive CallResult where
  | unit : CallResult
  | blockNumber (n : ℕ) : CallResult
deriving DecidableEq

/-- Modelled from the spec (§9): the settlement ledger as a pure
`(state, call) → (result, state)` transition function. -/
def step (c : Call) (st : ChainState) : Except Err CallResult × ChainState :=
  match c with
  | .deposit sender value =>
      let r := deposit sender value st
      (r.1.map .blockNumber, r.2)
  | .submitBlock sender digest blockNumber =>
      let r := submitBlock sender digest blockNumber st
      (r.1.map fun _ => .unit, r.2)
  | .startDepositExit sender blk =>
      let r := startDepositExit sender blk st
      (r.1.map fun _ => .unit, r.2)
  | .startExit sender pos txB proof sigs ip1 ip2 =>
      let r := startExit sender pos txB proof sigs ip1 ip2 st
      (r.1.map fun _ => .unit, r.2)
  | .challengeExit sender exitingPos challengePos txB proof sigs =>
      let r := challengeExit sender exitingPos challengePos txB proof sigs st
      (r.1.map fun _ => .unit, r.2)
  | .finalizeExits sender =>
      let r := finalizeExits sender st
      (r.1.map fun _ => .unit, r.2)

/- ================================================================
   Part 3: the two deployer modules,
   src/plasma/root_chain/deployer.py and src/plasma/rootchain/deployer.py.
   Strings (file names, contract names, paths) are modelled as character
   lists; `os.path` functions, the solc invocation and the web3 connection
   are opaque parameters, identical for both modules.
   ================================================================ -/

/-- Contract/file names and paths, as character lists. -/
abbrev Name := List Char

/-- The dot character, for Python's `split('.')`. -/
def dotChar : Char := Char.ofNat 46

/-- Python's `s.split('.')[0]`: the prefix of `s` before the first dot (the
whole string when it has no dot). -/
def stem : Name → Name
  | [] => []
  | c :: rest => if c = dotChar then [] else c :: stem rest

/-- The build output the compiler produces for one contract: the fields
`get_contract_data` reads (`abi` and `evm.bytecode.object`) plus the rest of
the per-contract JSON, all abstracted; `json.dump`/`json.load` round-trips
this data unchanged. -/
structure ContractData where
  abi : ℕ
  bytecodeObject : ℕ
  other : ℕ
deriving DecidableEq

/-- The `'contracts'` field of the solc compilation result: per source file,
the contracts it defines with their build data, in dict (insertion) order. -/
abbrev CompilationResult := List (Name × List (Name × ContractData))

/-- The Solidity compiler input JSON: the `'language'` tag and the
`'sources'` dict, each source file name mapped to its `'urls'` list. -/
structure SolcInput where
  language : Name
  sources : List (Name × List Name)
deriving DecidableEq

/-- The `'Solidity'` language tag both modules write. -/
def solidityTag : Name := "Solidity".toList

/-- The inner write loop of `compile_all` (character-identical in both
deployer modules): for each contract key of one file's compilation output,
truncate the key at the first dot and write, to `build/{name}.json`, the data
stored under the truncated key; looking up a missing truncated key is
Python's `KeyError`, which aborts the call. -/
def perFileWrites (keys all : List (Name × ContractData)) :
    Except Unit (List (Name × ContractData)) :=
  match keys with
  | [] => .ok []
  | (cname, _) :: rest =>
      match alookup (stem cname) all with
      | none => .error ()
      | some d =>
          match perFileWrites rest all with
          | .error e => .error e
          | .ok l => .ok ((stem cname, d) :: l)

/-- The outer write loop of `compile_all` (character-identical in both
deployer modules): the per-contract JSON files written to the build
directory, in write order; a later write to the same path overwrites an
earlier one, so reads search the list from the end. -/
def buildWrites : CompilationResult → Except Unit (List (Name × ContractData))
  | [] => .ok []
  | (_, contracts) :: rest =>
      match perFileWrites contracts contracts with
      | .error e => .error e
      | .ok w =>
          match buildWrites rest with
          | .error e => .error e
          | .ok ws => .ok (w ++ ws)

/-- Every contract of a compilation result with its build data, in the write
order of `compile_all`. -/
def allContracts : CompilationResult → List (Name × ContractData)
  | [] => []
  | (_, contracts) :: rest => contracts ++ allContracts rest

/-- The web3 connection obtained from a provider, abstracted: the default
account, the contract-deployment transaction, and the receipt lookup giving
the deployed contract's address. -/
structure Web3 where
  accounts0 : ℕ
  deployTx : ℕ → ℕ → ℕ → ℕ → ℕ → ℕ
  receiptContractAddress : ℕ → ℕ

/-- The concise contract instance `deploy_contract` returns: built from the
contract's ABI and the deployed address. -/
structure ContractInstance where
  abi : ℕ
  address : ℕ
deriving DecidableEq

namespace RootChainDeployer

/-- Function `get_solc_input` of src/plasma/root_chain/deployer.py: walks the
contracts directory and maps every file name to the singleton list holding
the real path of that file, under the `'Solidity'` language tag. -/
def get_solc_input (realpath : Name → Name) (pathJoin : Name → Name → Name)
    (walk : List (Name × List Name)) : SolcInput :=
  ⟨solidityTag,
   (walk.map fun rf => rf.2.map fun fn => (fn, [realpath (pathJoin rf.1 fn)])).flatten⟩

/-- Function `compile_all` of src/plasma/root_chain/deployer.py: builds the compiler
input with `get_solc_input`, invokes the compiler (`compileStandard`,
abstracted, applied to the input and the `allow_paths` directory), and writes
the per-contract JSON build files. -/
def compile_all (realpath : Name → Name) (pathJoin : Name → Name → Name)
    (compileStandard : SolcInput → Name → CompilationResult)
    (contractsDir : Name) (walk : List (Name × List Name)) :
    Except Unit (List (Name × ContractData)) :=
  buildWrites (compileStandard (get_solc_input realpath pathJoin walk) contractsDir)

/-- Function `get_contract_data` of src/plasma/root_chain/deployer.py: reads
`build/{name}.json` (the most recent write to that path) and returns its
`abi` and `evm.bytecode.object` fields. -/
def get_contract_data (contract_name : Name)
    (build : List (Name × ContractData)) : Option (ℕ × ℕ) :=
  (alookup contract_name build.reverse).map fun d => (d.abi, d.bytecodeObject)

/-- Function `deploy_contract` of src/plasma/root_chain/deployer.py: loads the build
data with `get_contract_data`, deploys through the web3 connection for the
given provider with `from = accounts[0]` and the given gas and args, reads
the deployed address off the transaction receipt, and returns the concise
contract instance. -/
def deploy_contract (web3Of : ℕ → Web3) (provider gas args : ℕ)
    (build : List (Name × ContractData)) (contract_name : Name) :
    Option ContractInstance :=
  match get_contract_data contract_name build with
  | none => none
  | some (abi, bytecode) =>
      let w3 := web3Of provider
      let txHash := w3.deployTx abi bytecode w3.accounts0 gas args
      some ⟨abi, w3.receiptContractAddress txHash⟩

end RootChainDeployer

namespace RootchainDeployer

/-- Function `get_contracts` of src/plasma/rootchain/deployer.py: the same
walk-to-sources dict comprehension as `get_solc_input`, without the
surrounding input object. -/
def get_contracts (realpath : Name → Name) (pathJoin : Name → Name → Name)
    (walk : List (Name × List Name)) : List (Name × List Name) :=
  (walk.map fun rf => rf.2.map fun fn => (fn, [realpath (pathJoin rf.1 fn)])).flatten

/-- Function `compile_all` of src/plasma/rootchain/deployer.py: builds the compiler
input inline from `get_contracts` and otherwise runs the same compile-and
write sequence. -/
def compile_all (realpath : Name → Name) (pathJoin : Name → Name → Name)
    (compileStandard : SolcInput → Name → CompilationResult)
    (contractsDir : Name) (walk : List (Name × List Name)) :
    Except Unit (List (Name × ContractData)) :=
  buildWrites
    (compileStandard ⟨solidityTag, get_contracts realpath pathJoin walk⟩ contractsDir)

/-- Function `deploy_contract` of src/plasma/rootchain/deployer.py: reads
`build/{name}.json` inline (the same read `get_contract_data` performs) and
then runs the same deployment sequence. -/
def deploy_contract (web3Of : ℕ → Web3) (provider gas args : ℕ)
    (build : List (Name × ContractData)) (contract_name : Name) :
    Option ContractInstance :=
  match (alookup contract_name build.reverse).map
      (fun d => (d.abi, d.bytecodeObject)) with
  | none => none
  | some (abi, bytecode) =>
      let w3 := web3Of provider
      let txHash := w3.deployTx abi bytecode w3.accounts0 gas args
      some ⟨abi, w3.receiptContractAddress txHash⟩

end RootchainDeployer

/- ================================================================
   Part 4: the claims.
   ================================================================ -/

/-- Claim C1.  The claim asserts that decoding recovers the encoding triple
for every block number.  It fails: `decode_utxo_pos` divides with Python's
float `/`, and at block number `2^53 + 1` the quotient `position / 10^9 =
2^53 + 1` falls exactly halfway between the two nearest binary64 values and
rounds to even, giving block number `2^53` and output index `10^9` instead of
the encoded `(2^53 + 1, 0, 0)`.  This theorem evaluates the decoder at that
failing input. -/
theorem decode_utxo_pos_fails_at_block_2pow53_add_one :
    decode_utxo_pos (encode_utxo_pos 9007199254740993 0 0)
        = (9007199254740992, 0, (1000000000 : ℤ)) ∧
      ((9007199254740992 : ℕ), (0 : ℕ), (1000000000 : ℤ)) ≠
        (9007199254740993, 0, (0 : ℤ)) := by
  constructor
  · decide
  · decide

/-- The lexicographic order on position triples. -/
def utxoLexLt (b1 t1 o1 b2 t2 o2 : ℕ) : Prop :=
  b1 < b2 ∨ (b1 = b2 ∧ (t1 < t2 ∨ (t1 = t2 ∧ o1 < o2)))

/-- Claim C6.  Within the field bounds, the packed-position order agrees with
the lexicographic order of the triples; consequently `finalizeExits`, which
scans records in ascending packed position, pays out the record with the
lower block/index first even when the state holds the records in the
opposite order. -/
theorem encode_utxo_pos_orders_exits_lexicographically
    (b1 t1 o1 b2 t2 o2 : ℕ)
    (ht1 : t1 < 10000) (ho1 : o1 < 10) (ht2 : t2 < 10000) (ho2 : o2 < 10)
    (st : ChainState) (p1 p2 : ℕ) (r1 r2 : ExitRecord)
    (hl : st.exitList = [(p2, r2), (p1, r1)])
    (hp : p1 < p2)
    (hd1 : r1.exitableAt ≤ st.now) (hd2 : r2.exitableAt ≤ st.now)
    (hv1 : r1.voided = false) (hv2 : r2.voided = false) :
    (encode_utxo_pos b1 t1 o1 < encode_utxo_pos b2 t2 o2 ↔
        utxoLexLt b1 t1 o1 b2 t2 o2) ∧
      (finalizeExits 0 st).2.paid
        = st.paid ++ [(r1.owner, r1.value), (r2.owner, r2.value)] := by
  constructor
  · unfold encode_utxo_pos utxoLexLt
    omega
  · have hnp : ¬ (p2 ≤ p1) := by omega
    simp [finalizeExits, hl, List.insertionSort, List.orderedInsert, hnp,
      finalizeScan, hd1, hd2, hv1, hv2]

/-- Concrete instance of claim C6: position `(1,2,3)` encodes below
`(1,2,4)`, and a due two-record state pays the lower position's owner
first. -/
theorem encode_utxo_pos_orders_exits_lexicographically_witness :
    encode_utxo_pos 1 2 3 < encode_utxo_pos 1 2 4 ∧
      (finalizeExits 0
          ⟨[], [(2000000000, ⟨8, 200, 2000000000, 5, false⟩),
                (1000000000, ⟨7, 100, 1000000000, 5, false⟩)],
           [], 300, [], 1000, 1, 0, 10⟩).2.paid
        = [(7, 100), (8, 200)] := by
  have h := encode_utxo_pos_orders_exits_lexicographically 1 2 3 1 2 4
    (by decide) (by decide) (by decide) (by decide)
    ⟨[], [(2000000000, ⟨8, 200, 2000000000, 5, false⟩),
          (1000000000, ⟨7, 100, 1000000000, 5, false⟩)],
     [], 300, [], 1000, 1, 0, 10⟩
    1000000000 2000000000
    ⟨7, 100, 1000000000, 5, false⟩ ⟨8, 200, 2000000000, 5, false⟩
    rfl (by decide) (by decide) (by decide) rfl rfl
  exact ⟨h.1.mpr (Or.inr ⟨rfl, Or.inr ⟨rfl, by decide⟩⟩), h.2⟩

/-- Exact integer decoding inverts the packed encoding within the field
bounds. -/
theorem decodePosExact_encode (b t o : ℕ) (ht : t < 10000) (ho : o < 10000) :
    decodePosExact (encode_utxo_pos b t o) = (b, t, o) := by
  simp only [decodePosExact, encode_utxo_pos, Prod.mk.injEq]
  omega

/-- Claim C2.  Depositing value `v` for owner `A` succeeds, returns the
allocated deposit slot, and stores there a block whose digest is the Merkle
root of the single leaf `hash(output(A, v))` in the fixed-depth tree,
timestamped with the call time; `startDepositExit` on that slot then succeeds
and installs the record `{owner A, value v, position (slot,0,0), exitableAt =
now + ChallengePeriod, voided = false}`, observable through `exits`. -/
theorem deposit_then_startDepositExit_installs_record
    (st : ChainState) (A : Address) (v : ℕ)
    (hdep : st.currentDepositBlock < stride)
    (hfresh : alookup (encode_utxo_pos (depositBlockNumber st) 0 0)
        st.exitList = none) :
    (deposit A v st).1 = .ok (depositBlockNumber st) ∧
    (∃ d, buildRoot [Hash.depositLeaf A v] treeDepth = .ok d ∧
      alookup (depositBlockNumber st) (deposit A v st).2.blocks
        = some ⟨d, st.now⟩) ∧
    (startDepositExit A (depositBlockNumber st) (deposit A v st).2).1
        = .ok () ∧
    alookup (encode_utxo_pos (depositBlockNumber st) 0 0)
        (startDepositExit A (depositBlockNumber st) (deposit A v st).2).2.exitList
      = some ⟨A, v, encode_utxo_pos (depositBlockNumber st) 0 0,
              st.now + challengePeriod, false⟩ ∧
    exits (startDepositExit A (depositBlockNumber st) (deposit A v st).2).2
        (encode_utxo_pos (depositBlockNumber st) 0 0) = (A, v) := by
  have hroot : buildRoot [Hash.depositLeaf A v] treeDepth
      = .ok (buildRootAux treeDepth (padTo [Hash.depositLeaf A v] (2 ^ treeDepth))) := by
    unfold buildRoot
    rw [if_neg (by norm_num [treeDepth])]
  have hd : deposit A v st =
      (.ok (depositBlockNumber st),
       { st with
          blocks := (depositBlockNumber st,
              ⟨buildRootAux treeDepth (padTo [Hash.depositLeaf A v] (2 ^ treeDepth)),
               st.now⟩) :: st.blocks
          depositRecords := (depositBlockNumber st, (A, v)) :: st.depositRecords
          escrow := st.escrow + v
          currentDepositBlock := st.currentDepositBlock + 1 }) := by
    unfold deposit
    rw [if_pos hdep, hroot]
  refine ⟨?_, ⟨_, hroot, ?_⟩, ?_, ?_, ?_⟩
  · rw [hd]
  · rw [hd]; simp [alookup]
  · rw [hd]; simp [startDepositExit, alookup, hfresh]
  · rw [hd]; simp [startDepositExit, alookup, hfresh]
  · rw [hd]; simp [startDepositExit, alookup, hfresh, exits]

/-- Concrete instance of claim C2: deposit of value 100 for owner 5 on the
initial state allocates slot 1 and the deposit exit from it is observable. -/
theorem deposit_then_startDepositExit_installs_record_witness :
    (deposit 5 100 (initialState 0)).1 = .ok 1 ∧
    (startDepositExit 5 1 (deposit 5 100 (initialState 0)).2).1 = .ok () ∧
    exits (startDepositExit 5 1 (deposit 5 100 (initialState 0)).2).2
        (encode_utxo_pos 1 0 0) = (5, 100) := by
  have h := deposit_then_startDepositExit_installs_record (initialState 0) 5 100
    (by decide) rfl
  exact ⟨h.1, h.2.2.1, h.2.2.2.2⟩

/-- Claim C3.  A transaction spending a previously included output `(A, v)`
into the output `(A, v)` again, included in a block whose input has the
required confirmation margin behind it, lets `startExit` succeed with a valid
inclusion proof, a valid signature, and the input transaction's own inclusion
proof; the created record is observable: `exits(position) = (A, v)`. -/
theorem startExit_spending_included_output_succeeds
    (st : ChainState) (sender A : Address) (v : ℕ)
    (blk ti oi iblk iti ioi : ℕ) (tx itx : Tx)
    (proof iproof : List Hash) (s1 s2 : Sig) (isig : Sig × Sig)
    (ip2 : InputProof) (bl ibl : Block)
    (hti : ti < 10000) (hoi : oi < 10000)
    (hiti : iti < 10000) (hioi : ioi < 10000)
    (hin1 : tx.in1 = ⟨encode_utxo_pos iblk iti ioi, A⟩)
    (hin2 : tx.in2.pos = 0)
    (hout : outputAt tx oi = ⟨A, v⟩)
    (hipos : encode_utxo_pos iblk iti ioi ≠ 0)
    (hbl : alookup blk st.blocks = some bl)
    (hincl : verifyMembership bl.digest treeDepth ti (contentHash tx) proof = true)
    (hibl : alookup iblk st.blocks = some ibl)
    (hiincl : verifyMembership ibl.digest treeDepth iti (contentHash itx) iproof
        = true)
    (hiout : outputAt itx ioi = ⟨A, v⟩)
    (hsig : s1 = ⟨A, contentHash tx⟩)
    (hmargin : iblk + confirmationMargin * stride ≤ st.currentChildBlock)
    (hnoexit : alookup (encode_utxo_pos blk ti oi) st.exitList = none) :
    (startExit sender (encode_utxo_pos blk ti oi) (.valid tx) proof (s1, s2)
        ⟨.valid itx, iproof, isig⟩ ip2 st).1 = .ok () ∧
    exits (startExit sender (encode_utxo_pos blk ti oi) (.valid tx) proof (s1, s2)
        ⟨.valid itx, iproof, isig⟩ ip2 st).2 (encode_utxo_pos blk ti oi)
      = (A, v) ∧
    alookup (encode_utxo_pos blk ti oi)
        (startExit sender (encode_utxo_pos blk ti oi) (.valid tx) proof (s1, s2)
          ⟨.valid itx, iproof, isig⟩ ip2 st).2.exitList
      = some ⟨A, v, encode_utxo_pos blk ti oi,
              st.now + challengePeriod, false⟩ := by
  have hd1 := decodePosExact_encode blk ti oi hti hoi
  have hd2 := decodePosExact_encode iblk iti ioi hiti hioi
  have hchk1 : checkInput st tx.in1 ⟨.valid itx, iproof, isig⟩ s1 (contentHash tx)
      = .ok () := by
    rw [hin1]
    unfold checkInput
    rw [if_neg hipos]
    simp only [decodeTx, hd2, hibl]
    rw [if_pos (by simp [hiincl]), if_pos (by simp [hiout]),
      if_pos (by simp [hsig, recoverSigner]),
      if_pos (Or.inr hmargin)]
  have hchk2 : checkInput st tx.in2 ip2 s2 (contentHash tx) = .ok () := by
    unfold checkInput
    rw [if_pos hin2]
  have hmain : startExit sender (encode_utxo_pos blk ti oi) (.valid tx) proof
      (s1, s2) ⟨.valid itx, iproof, isig⟩ ip2 st
      = (.ok (),
         { st with
            exitList := (encode_utxo_pos blk ti oi,
              ⟨A, v, encode_utxo_pos blk ti oi,
               st.now + challengePeriod, false⟩) :: st.exitList }) := by
    unfold startExit
    simp only [decodeTx, hd1, hbl]
    rw [if_pos (by simp [hincl])]
    simp only [hchk1, hchk2, hnoexit, hout]
  rw [hmain]
  refine ⟨rfl, ?_, ?_⟩ <;> simp [exits, alookup]

/-- Concrete exiting transaction for the claim C3 instance: spends the output
at position `(1000,0,0)` owned by address 1 into the output `(1, 100)`. -/
def c3Tx : Tx := ⟨⟨1000000000000, 1⟩, ⟨0, 0⟩, ⟨1, 100⟩, ⟨0, 0⟩, 0, 0⟩

/-- Concrete input transaction for the claim C3 instance: its first output is
`(1, 100)`. -/
def c3InputTx : Tx := ⟨⟨0, 0⟩, ⟨0, 0⟩, ⟨1, 100⟩, ⟨0, 0⟩, 0, 0⟩

/-- A depth-16 all-default sibling path for the claim C3 instance. -/
def c3Proof : List Hash := List.replicate 16 Hash.defaultLeaf

/-- Concrete ledger state for the claim C3 instance: the input transaction is
committed in block 1000, the exiting transaction in block 4000, and the chain
has advanced to slot 5000, so the input has the three-block margin. -/
def c3State : ChainState :=
  ⟨[(4000, ⟨rootFromProof (contentHash c3Tx) 0 c3Proof, 0⟩),
    (1000, ⟨rootFromProof (contentHash c3InputTx) 0 c3Proof, 0⟩)],
   [], [], 0, [], 5000, 1, 0, 0⟩

/-- Concrete instance of claim C3: the exit from position `(4000,0,0)`
succeeds and becomes observable as `(1, 100)`. -/
theorem startExit_spending_included_output_succeeds_witness :
    (startExit 1 (encode_utxo_pos 4000 0 0) (.valid c3Tx) c3Proof
        (⟨1, contentHash c3Tx⟩, ⟨0, Hash.defaultLeaf⟩)
        ⟨.valid c3InputTx, c3Proof, (⟨0, Hash.defaultLeaf⟩, ⟨0, Hash.defaultLeaf⟩)⟩
        ⟨.malformed 0, [], (⟨0, Hash.defaultLeaf⟩, ⟨0, Hash.defaultLeaf⟩)⟩
        c3State).1 = .ok () ∧
    exits (startExit 1 (encode_utxo_pos 4000 0 0) (.valid c3Tx) c3Proof
        (⟨1, contentHash c3Tx⟩, ⟨0, Hash.defaultLeaf⟩)
        ⟨.valid c3InputTx, c3Proof, (⟨0, Hash.defaultLeaf⟩, ⟨0, Hash.defaultLeaf⟩)⟩
        ⟨.malformed 0, [], (⟨0, Hash.defaultLeaf⟩, ⟨0, Hash.defaultLeaf⟩)⟩
        c3State).2 (encode_utxo_pos 4000 0 0) = (1, 100) := by
  have h := startExit_spending_included_output_succeeds c3State 1 1 100
    4000 0 0 1000 0 0 c3Tx c3InputTx c3Proof c3Proof
    ⟨1, contentHash c3Tx⟩ ⟨0, Hash.defaultLeaf⟩
    (⟨0, Hash.defaultLeaf⟩, ⟨0, Hash.defaultLeaf⟩)
    ⟨.malformed 0, [], (⟨0, Hash.defaultLeaf⟩, ⟨0, Hash.defaultLeaf⟩)⟩
    ⟨rootFromProof (contentHash c3Tx) 0 c3Proof, 0⟩
    ⟨rootFromProof (contentHash c3InputTx) 0 c3Proof, 0⟩
    (by decide) (by decide) (by decide) (by decide)
    (by decide) rfl (by decide) (by decide)
    (by decide) (by decide) (by decide) (by decide)
    (by decide) rfl (by decide) rfl
  exact ⟨h.1, h.2.1⟩

/-- Claim C4.  When the input transaction's containing regular block is one
block short of the required confirmation margin relative to the current chain
height — everything else about the call being valid — `startExit` fails with
`PrematureAction`, the ledger state is unchanged, and `exits` still shows no
live record at the attempted position. -/
theorem startExit_one_block_short_fails_premature
    (st : ChainState) (sender A : Address) (v : ℕ)
    (blk ti oi iblk iti ioi : ℕ) (tx itx : Tx)
    (proof iproof : List Hash) (s1 s2 : Sig) (isig : Sig × Sig)
    (ip2 : InputProof) (bl ibl : Block)
    (hti : ti < 10000) (hoi : oi < 10000)
    (hiti : iti < 10000) (hioi : ioi < 10000)
    (hin1 : tx.in1 = ⟨encode_utxo_pos iblk iti ioi, A⟩)
    (hout : outputAt tx oi = ⟨A, v⟩)
    (hipos : encode_utxo_pos iblk iti ioi ≠ 0)
    (hbl : alookup blk st.blocks = some bl)
    (hincl : verifyMembership bl.digest treeDepth ti (contentHash tx) proof = true)
    (hibl : alookup iblk st.blocks = some ibl)
    (hiincl : verifyMembership ibl.digest treeDepth iti (contentHash itx) iproof
        = true)
    (hiout : outputAt itx ioi = ⟨A, v⟩)
    (hsig : s1 = ⟨A, contentHash tx⟩)
    (hregular : iblk % stride = 0)
    (hshort : st.currentChildBlock + stride = iblk + confirmationMargin * stride)
    (hnoexit : alookup (encode_utxo_pos blk ti oi) st.exitList = none) :
    (startExit sender (encode_utxo_pos blk ti oi) (.valid tx) proof (s1, s2)
        ⟨.valid itx, iproof, isig⟩ ip2 st).1 = .error .PrematureAction ∧
    (startExit sender (encode_utxo_pos blk ti oi) (.valid tx) proof (s1, s2)
        ⟨.valid itx, iproof, isig⟩ ip2 st).2 = st ∧
    exits (startExit sender (encode_utxo_pos blk ti oi) (.valid tx) proof (s1, s2)
        ⟨.valid itx, iproof, isig⟩ ip2 st).2 (encode_utxo_pos blk ti oi)
      = (0, 0) := by
  have hd1 := decodePosExact_encode blk ti oi hti hoi
  have hd2 := decodePosExact_encode iblk iti ioi hiti hioi
  have hnotmargin : ¬ (iblk % stride ≠ 0 ∨
      iblk + confirmationMargin * stride ≤ st.currentChildBlock) := by
    simp only [stride, confirmationMargin] at hregular hshort ⊢
    omega
  have hchk1 : checkInput st tx.in1 ⟨.valid itx, iproof, isig⟩ s1 (contentHash tx)
      = .error .PrematureAction := by
    rw [hin1]
    unfold checkInput
    rw [if_neg hipos]
    simp only [decodeTx, hd2, hibl]
    rw [if_pos (by simp [hiincl]), if_pos (by simp [hiout]),
      if_pos (by simp [hsig, recoverSigner]),
      if_neg hnotmargin]
  have hmain : startExit sender (encode_utxo_pos blk ti oi) (.valid tx) proof
      (s1, s2) ⟨.valid itx, iproof, isig⟩ ip2 st
      = (.error .PrematureAction, st) := by
    unfold startExit
    simp only [decodeTx, hd1, hbl]
    rw [if_pos (by simp [hincl])]
    simp only [hchk1]
  rw [hmain]
  refine ⟨rfl, rfl, ?_⟩
  simp [exits, hnoexit]

/-- Concrete instance of claim C4: the chain is at slot 3000, one regular
block short of the margin for an input in block 1000, so the exit from
position `(2000,0,0)` is rejected as premature and no record appears. -/
theorem startExit_one_block_short_fails_premature_witness :
    (startExit 1 (encode_utxo_pos 2000 0 0) (.valid c3Tx) c3Proof
        (⟨1, contentHash c3Tx⟩, ⟨0, Hash.defaultLeaf⟩)
        ⟨.valid c3InputTx, c3Proof, (⟨0, Hash.defaultLeaf⟩, ⟨0, Hash.defaultLeaf⟩)⟩
        ⟨.malformed 0, [], (⟨0, Hash.defaultLeaf⟩, ⟨0, Hash.defaultLeaf⟩)⟩
        ⟨[(2000, ⟨rootFromProof (contentHash c3Tx) 0 c3Proof, 0⟩),
          (1000, ⟨rootFromProof (contentHash c3InputTx) 0 c3Proof, 0⟩)],
         [], [], 0, [], 3000, 1, 0, 0⟩).1 = .error .PrematureAction ∧
    exits (startExit 1 (encode_utxo_pos 2000 0 0) (.valid c3Tx) c3Proof
        (⟨1, contentHash c3Tx⟩, ⟨0, Hash.defaultLeaf⟩)
        ⟨.valid c3InputTx, c3Proof, (⟨0, Hash.defaultLeaf⟩, ⟨0, Hash.defaultLeaf⟩)⟩
        ⟨.malformed 0, [], (⟨0, Hash.defaultLeaf⟩, ⟨0, Hash.defaultLeaf⟩)⟩
        ⟨[(2000, ⟨rootFromProof (contentHash c3Tx) 0 c3Proof, 0⟩),
          (1000, ⟨rootFromProof (contentHash c3InputTx) 0 c3Proof, 0⟩)],
         [], [], 0, [], 3000, 1, 0, 0⟩).2 (encode_utxo_pos 2000 0 0) = (0, 0) := by
  have h := startExit_one_block_short_fails_premature
    ⟨[(2000, ⟨rootFromProof (contentHash c3Tx) 0 c3Proof, 0⟩),
      (1000, ⟨rootFromProof (contentHash c3InputTx) 0 c3Proof, 0⟩)],
     [], [], 0, [], 3000, 1, 0, 0⟩ 1 1 100
    2000 0 0 1000 0 0 c3Tx c3InputTx c3Proof c3Proof
    ⟨1, contentHash c3Tx⟩ ⟨0, Hash.defaultLeaf⟩
    (⟨0, Hash.defaultLeaf⟩, ⟨0, Hash.defaultLeaf⟩)
    ⟨.malformed 0, [], (⟨0, Hash.defaultLeaf⟩, ⟨0, Hash.defaultLeaf⟩)⟩
    ⟨rootFromProof (contentHash c3Tx) 0 c3Proof, 0⟩
    ⟨rootFromProof (contentHash c3InputTx) 0 c3Proof, 0⟩
    (by decide) (by decide) (by decide) (by decide)
    (by decide) (by decide) (by decide) (by decide)
    (by decide) (by decide) (by decide) (by decide)
    rfl (by decide) (by decide) rfl
  exact ⟨h.1, h.2.2⟩

theorem except_map_error {α β : Type} (f : α → β) (x : Except Err α) (e : Err)
    (h : x.map f = .error e) : x = .error e := by
  cases x with
  | error e' =>
      simp only [Except.map] at h
      injection h with he
      rw [he]
  | ok a => simp [Except.map] at h

theorem deposit_error_state (s : Address) (v : ℕ) (st : ChainState) (e : Err)
    (h : (deposit s v st).1 = .error e) : (deposit s v st).2 = st := by
  unfold deposit at h ⊢
  by_cases hc : st.currentDepositBlock < stride
  · simp only [if_pos hc] at h ⊢
    rcases hbr : buildRoot [Hash.depositLeaf s v] treeDepth with e1 | d
    · simp only [hbr] at h ⊢
    · simp only [hbr] at h ⊢
      simp at h
  · simp only [if_neg hc] at h ⊢

theorem submitBlock_error_state (s : Address) (d : Hash) (n : ℕ)
    (st : ChainState) (e : Err)
    (h : (submitBlock s d n st).1 = .error e) : (submitBlock s d n st).2 = st := by
  unfold submitBlock at h ⊢
  by_cases h1 : s = st.authority
  · simp only [if_pos h1] at h ⊢
    by_cases h2 : n = st.currentChildBlock
    · simp only [if_pos h2] at h ⊢
      simp at h
    · simp only [if_neg h2] at h ⊢
  · simp only [if_neg h1] at h ⊢

theorem startDepositExit_error_state (s : Address) (blk : ℕ) (st : ChainState)
    (e : Err) (h : (startDepositExit s blk st).1 = .error e) :
    (startDepositExit s blk st).2 = st := by
  unfold startDepositExit at h ⊢
  rcases hdr : alookup blk st.depositRecords with _ | ov
  · simp only [hdr] at h ⊢
  · obtain ⟨owner, value⟩ := ov
    simp only [hdr] at h ⊢
    rcases hle : alookup (encode_utxo_pos blk 0 0) st.exitList with _ | r
    · simp only [hle] at h ⊢
      simp at h
    · simp only [hle] at h ⊢

theorem startExit_error_state (s : Address) (pos : ℕ) (txB : TxBytes)
    (proof : List Hash) (sigs : Sig × Sig) (ip1 ip2 : InputProof)
    (st : ChainState) (e : Err)
    (h : (startExit s pos txB proof sigs ip1 ip2 st).1 = .error e) :
    (startExit s pos txB proof sigs ip1 ip2 st).2 = st := by
  unfold startExit at h ⊢
  rcases hdt : decodeTx txB with e1 | tx
  · simp only [hdt] at h ⊢
  · simp only [hdt] at h ⊢
    rcases hlb : alookup (decodePosExact pos).1 st.blocks with _ | bl
    · simp only [hlb] at h ⊢
    · simp only [hlb] at h ⊢
      by_cases hvm : verifyMembership bl.digest treeDepth (decodePosExact pos).2.1
          (contentHash tx) proof = true
      · simp only [if_pos hvm] at h ⊢
        rcases hc1 : checkInput st tx.in1 ip1 sigs.1 (contentHash tx) with e1 | u
        · simp only [hc1] at h ⊢
        · simp only [hc1] at h ⊢
          rcases hc2 : checkInput st tx.in2 ip2 sigs.2 (contentHash tx) with e2 | u2
          · simp only [hc2] at h ⊢
          · simp only [hc2] at h ⊢
            rcases hle : alookup pos st.exitList with _ | r
            · simp only [hle] at h ⊢
              simp at h
            · simp only [hle] at h ⊢
      · simp only [if_neg hvm] at h ⊢

theorem challengeExit_error_state (s : Address) (ep cp : ℕ) (txB : TxBytes)
    (proof : List Hash) (sigs : Sig × Sig) (st : ChainState) (e : Err)
    (h : (challengeExit s ep cp txB proof sigs st).1 = .error e) :
    (challengeExit s ep cp txB proof sigs st).2 = st := by
  unfold challengeExit at h ⊢
  rcases hr : alookup ep st.exitList with _ | r
  · simp only [hr] at h ⊢
  · simp only [hr] at h ⊢
    by_cases hv : r.voided = true
    · simp only [if_pos hv] at h ⊢
    · simp only [if_neg hv] at h ⊢
      rcases hdt : decodeTx txB with e1 | ctx
      · simp only [hdt] at h ⊢
      · simp only [hdt] at h ⊢
        rcases hlb : alookup (decodePosExact cp).1 st.blocks with _ | bl
        · simp only [hlb] at h ⊢
        · simp only [hlb] at h ⊢
          by_cases hvm : verifyMembership bl.digest treeDepth (decodePosExact cp).2.1
              (contentHash ctx) proof = true
          · simp only [if_pos hvm] at h ⊢
            by_cases hcond : (ctx.in1.pos = ep ∧
                  recoverSigner (contentHash ctx) sigs.1 = some r.owner) ∨
                (ctx.in2.pos = ep ∧
                  recoverSigner (contentHash ctx) sigs.2 = some r.owner)
            · simp only [if_pos hcond] at h ⊢
              simp at h
            · simp only [if_neg hcond] at h ⊢
          · simp only [if_neg hvm] at h ⊢

/-- Claim C5.  Every surface operation of the settlement ledger leaves the
entire state — Escrow, blocks, exit records, counters and payout log — intact
whenever the call fails: no partial mutation survives any failure. -/
theorem failed_calls_leave_state_unchanged (c : Call) (st : ChainState) (e : Err)
    (h : (step c st).1 = .error e) : (step c st).2 = st := by
  cases c with
  | deposit s v =>
      simp only [step] at h ⊢
      exact deposit_error_state s v st e (except_map_error _ _ _ h)
  | submitBlock s d n =>
      simp only [step] at h ⊢
      exact submitBlock_error_state s d n st e (except_map_error _ _ _ h)
  | startDepositExit s blk =>
      simp only [step] at h ⊢
      exact startDepositExit_error_state s blk st e (except_map_error _ _ _ h)
  | startExit s pos txB proof sigs ip1 ip2 =>
      simp only [step] at h ⊢
      exact startExit_error_state s pos txB proof sigs ip1 ip2 st e
        (except_map_error _ _ _ h)
  | challengeExit s ep cp txB proof sigs =>
      simp only [step] at h ⊢
      exact challengeExit_error_state s ep cp txB proof sigs st e
        (except_map_error _ _ _ h)
  | finalizeExits s =>
      simp [step, finalizeExits, Except.map] at h

/-- Concrete instance of claim C5: a non-operator `submitBlock` fails with
`AuthorizationFailure` and leaves the initial state untouched. -/
theorem failed_calls_leave_state_unchanged_witness :
    (step (Call.submitBlock 5 (Hash.rawDigest 9) 123) (initialState 0)).1
        = .error .AuthorizationFailure ∧
      (step (Call.submitBlock 5 (Hash.rawDigest 9) 123) (initialState 0)).2
        = initialState 0 :=
  ⟨rfl,
   failed_calls_leave_state_unchanged _ _ .AuthorizationFailure rfl⟩

/-- Claim C7.  For a state holding a single live exit record: `finalizeExits`
before `exitableAt` leaves the whole state (Escrow included) unchanged; after
`exitableAt`, for a non-voided record, it debits exactly the record's value
from Escrow, appends the payout `(owner, value)` to the payment log, and
removes the record so `exits(position)` reports the default empty record; a
further `finalizeExits` when nothing is due is a no-op. -/
theorem finalizeExits_pays_matured_skips_immature
    (st : ChainState) (p : ℕ) (r : ExitRecord) (sender : Address)
    (hl : st.exitList = [(p, r)])
    (hval : r.value ≤ st.escrow) :
    (¬ r.exitableAt ≤ st.now → (finalizeExits sender st).2 = st) ∧
    (r.exitableAt ≤ st.now → r.voided = false →
      (finalizeExits sender st).2.escrow = st.escrow - r.value ∧
      st.escrow - r.value + r.value = st.escrow ∧
      (finalizeExits sender st).2.paid = st.paid ++ [(r.owner, r.value)] ∧
      alookup p (finalizeExits sender st).2.exitList = none ∧
      exits (finalizeExits sender st).2 p = (0, 0) ∧
      (finalizeExits sender (finalizeExits sender st).2).2
        = (finalizeExits sender st).2) := by
  constructor
  · intro hnot
    simp only [finalizeExits, hl, List.insertionSort, List.orderedInsert,
      finalizeScan, if_neg hnot]
    rw [← hl]
    simp
  · intro hdue hnv
    have hfin : finalizeExits sender st
        = (.ok (),
           { st with
              exitList := []
              paid := st.paid ++ [(r.owner, r.value)]
              escrow := st.escrow - r.value }) := by
      simp only [finalizeExits, hl, List.insertionSort, List.orderedInsert,
        finalizeScan, if_pos hdue, hnv]
      simp
    rw [hfin]
    refine ⟨rfl, by omega, rfl, rfl, rfl, ?_⟩
    simp [finalizeExits, List.insertionSort, finalizeScan]

/-- Concrete instance of claim C7: a matured 100-value exit for owner 7 at
position `1000000000` is paid out of a 150 Escrow. -/
theorem finalizeExits_pays_matured_skips_immature_witness :
    (finalizeExits 2
        ⟨[], [(1000000000, ⟨7, 100, 1000000000, 50, false⟩)], [], 150, [],
         1000, 1, 0, 60⟩).2.escrow = 50 ∧
    (finalizeExits 2
        ⟨[], [(1000000000, ⟨7, 100, 1000000000, 50, false⟩)], [], 150, [],
         1000, 1, 0, 60⟩).2.paid = [(7, 100)] ∧
    exits (finalizeExits 2
        ⟨[], [(1000000000, ⟨7, 100, 1000000000, 50, false⟩)], [], 150, [],
         1000, 1, 0, 60⟩).2 1000000000 = (0, 0) := by
  have h := finalizeExits_pays_matured_skips_immature
    ⟨[], [(1000000000, ⟨7, 100, 1000000000, 50, false⟩)], [], 150, [],
     1000, 1, 0, 60⟩ 1000000000 ⟨7, 100, 1000000000, 50, false⟩ 2
    rfl (by decide)
  have h2 := h.2 (by decide) rfl
  exact ⟨h2.1, h2.2.2.1, h2.2.2.2.2.1⟩

/-- Counterexample to claim C8 as stated: the C8 claim asserts a query
against a position with no live record is rejected with `NotFound` rather
than answered with a default record, but the test suite pins the opposite
behaviour (test_root_chain.py line 200 asserts `exits(pos) ==
[null_address, 0]` after a failed `startExit`): on the initial state, which
holds no record at position 7, the `exits` query answers with the default
record `(0, 0)` instead of failing. -/
theorem exits_empty_position_answers_default_record :
    alookup 7 (initialState 0).exitList = none ∧
      exits (initialState 0) 7 = (0, 0) :=
  ⟨rfl, rfl⟩

/-- Claim C8 as amended.  `challengeExit` against a position holding no live
exit record fails with `NotFound` and changes nothing, while the `exits`
query against such a position is answered with the default record `(0, 0)`
rather than rejected. -/
theorem challengeExit_no_live_record_fails_NotFound
    (sender : Address) (ep cp : ℕ) (txB : TxBytes) (proof : List Hash)
    (sigs : Sig × Sig) (st : ChainState)
    (h : alookup ep st.exitList = none) :
    (challengeExit sender ep cp txB proof sigs st).1 = .error .NotFound ∧
    (challengeExit sender ep cp txB proof sigs st).2 = st ∧
    exits st ep = (0, 0) := by
  unfold challengeExit exits
  rw [h]
  exact ⟨rfl, rfl, rfl⟩

/-- Concrete instance of amended claim C8: challenging position 7 on the
initial state fails with `NotFound` and the query answers the default
record. -/
theorem challengeExit_no_live_record_fails_NotFound_witness :
    (challengeExit 1 7 8 (.malformed 0) []
        (⟨0, Hash.defaultLeaf⟩, ⟨0, Hash.defaultLeaf⟩) (initialState 0)).1
      = .error .NotFound ∧
    exits (initialState 0) 7 = (0, 0) := by
  have h := challengeExit_no_live_record_fails_NotFound 1 7 8 (.malformed 0) []
    (⟨0, Hash.defaultLeaf⟩, ⟨0, Hash.defaultLeaf⟩) (initialState 0) rfl
  exact ⟨h.1, h.2.2⟩

/-- Claim C9.  The two deployer modules are behaviourally equivalent: on the
same contracts-directory contents (the same walk, with the same `os.path`
functions) they construct the same Solidity compiler input and write the same
per-contract build files, and on the same build data, provider, gas and args
they perform the same deployment and return the same contract instance. -/
theorem deployer_modules_equivalent :
    (∀ (realpath : Name → Name) (pathJoin : Name → Name → Name)
        (walk : List (Name × List Name)),
      RootChainDeployer.get_solc_input realpath pathJoin walk
        = ⟨solidityTag, RootchainDeployer.get_contracts realpath pathJoin walk⟩) ∧
    (∀ (realpath : Name → Name) (pathJoin : Name → Name → Name)
        (compileStandard : SolcInput → Name → CompilationResult)
        (contractsDir : Name) (walk : List (Name × List Name)),
      RootChainDeployer.compile_all realpath pathJoin compileStandard
          contractsDir walk
        = RootchainDeployer.compile_all realpath pathJoin compileStandard
            contractsDir walk) ∧
    (∀ (web3Of : ℕ → Web3) (provider gas args : ℕ)
        (build : List (Name × ContractData)) (contract_name : Name),
      RootChainDeployer.deploy_contract web3Of provider gas args build
          contract_name
        = RootchainDeployer.deploy_contract web3Of provider gas args build
            contract_name) :=
  ⟨fun _ _ _ => rfl, fun _ _ _ _ _ => rfl, fun _ _ _ _ _ _ => rfl⟩

theorem alookup_nodup_mem {κ β : Type} [DecidableEq κ] :
    ∀ (l : List (κ × β)) (k : κ) (v : β),
      (l.map Prod.fst).Nodup → (k, v) ∈ l → alookup k l = some v := by
  intro l
  induction l with
  | nil => intro k v _ hm; simp at hm
  | cons a rest ih =>
      intro k v hnd hm
      obtain ⟨k', v'⟩ := a
      simp only [List.map_cons, List.nodup_cons] at hnd
      rcases List.mem_cons.mp hm with heq | hmem
      · injection heq with h1 h2
        subst h1
        subst h2
        simp [alookup]
      · have hk : ¬ k = k' := by
          intro hkk
          subst hkk
          exact hnd.1 (List.mem_map.mpr ⟨(k, v), hmem, rfl⟩)
        simp only [alookup, if_neg hk]
        exact ih k v hnd.2 hmem

theorem mem_allContracts :
    ∀ (res : CompilationResult) (f : Name) (cs : List (Name × ContractData))
      (n : Name) (d : ContractData),
      (f, cs) ∈ res → (n, d) ∈ cs → (n, d) ∈ allContracts res := by
  intro res
  induction res with
  | nil => intro f cs n d hf _; simp at hf
  | cons a rest ih =>
      intro f cs n d hf hcd
      obtain ⟨f', cs'⟩ := a
      rcases List.mem_cons.mp hf with heq | hmem
      · injection heq with h1 h2
        subst h2
        simp only [allContracts, List.mem_append]
        exact Or.inl hcd
      · simp only [allContracts, List.mem_append]
        exact Or.inr (ih f cs n d hmem hcd)

theorem perFileWrites_id (all : List (Name × ContractData))
    (hstem : ∀ cd ∈ all, stem cd.1 = cd.1)
    (hnd : (all.map Prod.fst).Nodup) :
    ∀ l, (∀ cd ∈ l, cd ∈ all) → perFileWrites l all = .ok l := by
  intro l
  induction l with
  | nil => intro _; rfl
  | cons a rest ih =>
      intro hsub
      obtain ⟨cname, d⟩ := a
      have hmem : (cname, d) ∈ all := hsub _ (List.mem_cons_self _ _)
      have hst : stem cname = cname := hstem _ hmem
      have hlk : alookup cname all = some d :=
        alookup_nodup_mem all cname d hnd hmem
      simp only [perFileWrites, hst, hlk]
      rw [ih (fun cd hcd => hsub cd (List.mem_cons_of_mem _ hcd))]

theorem buildWrites_flat :
    ∀ (res : CompilationResult),
      (∀ fc ∈ res, ∀ cd ∈ fc.2, stem cd.1 = cd.1) →
      ((allContracts res).map Prod.fst).Nodup →
      buildWrites res = .ok (allContracts res) := by
  intro res
  induction res with
  | nil => intro _ _; rfl
  | cons a rest ih =>
      intro hstem hnd
      obtain ⟨f, cs⟩ := a
      have hndall : ((cs ++ allContracts rest).map Prod.fst).Nodup := by
        simpa [allContracts] using hnd
      rw [List.map_append] at hndall
      have hnd1 : (cs.map Prod.fst).Nodup := hndall.of_append_left
      have hnd2 : ((allContracts rest).map Prod.fst).Nodup := hndall.of_append_right
      have hstem1 : ∀ cd ∈ cs, stem cd.1 = cd.1 :=
        hstem (f, cs) (List.mem_cons_self _ _)
      have hpf : perFileWrites cs cs = .ok cs :=
        perFileWrites_id cs hstem1 hnd1 cs (fun _ h => h)
      have hbw : buildWrites rest = .ok (allContracts rest) :=
        ih (fun fc hfc => hstem fc (List.mem_cons_of_mem _ hfc)) hnd2
      simp only [buildWrites, hpf, hbw, allContracts]

/-- Claim C10 as amended.  When every contract name in the compilation result
is dot-free and the names are globally unique, `compile_all` succeeds writing
exactly one build file per contract, and `get_contract_data` then returns,
for each contract, exactly the `abi` and `evm.bytecode.object` fields the
compiler produced for it.  (Without global uniqueness a later contract with
the same dot-free name overwrites the earlier one's build file — the
counterexample.) -/
theorem compile_all_roundtrips_unique_names
    (realpath : Name → Name) (pathJoin : Name → Name → Name)
    (compileStandard : SolcInput → Name → CompilationResult)
    (contractsDir : Name) (walk : List (Name × List Name))
    (res : CompilationResult) (f n : Name) (cs : List (Name × ContractData))
    (d : ContractData)
    (hres : compileStandard
        (RootChainDeployer.get_solc_input realpath pathJoin walk) contractsDir
      = res)
    (hstem : ∀ fc ∈ res, ∀ cd ∈ fc.2, stem cd.1 = cd.1)
    (hnd : ((allContracts res).map Prod.fst).Nodup)
    (hf : (f, cs) ∈ res) (hcd : (n, d) ∈ cs) :
    RootChainDeployer.compile_all realpath pathJoin compileStandard
        contractsDir walk
      = .ok (allContracts res) ∧
    RootChainDeployer.get_contract_data n (allContracts res)
      = some (d.abi, d.bytecodeObject) := by
  constructor
  · unfold RootChainDeployer.compile_all
    rw [hres]
    exact buildWrites_flat res hstem hnd
  · unfold RootChainDeployer.get_contract_data
    have hmem : (n, d) ∈ (allContracts res).reverse :=
      List.mem_reverse.mpr (mem_allContracts res f cs n d hf hcd)
    have hndr : ((allContracts res).reverse.map Prod.fst).Nodup := by
      rw [List.map_reverse]
      exact List.nodup_reverse.mpr hnd
    rw [alookup_nodup_mem _ n d hndr hmem]
    rfl

/-- The contract name `"C"` for the claim C10 counterexample. -/
def c10NameC : Name := [Char.ofNat 67]

/-- Source file name `"a"` for the claim C10 counterexample. -/
def c10File1 : Name := [Char.ofNat 97]

/-- Source file name `"b"` for the claim C10 counterexample. -/
def c10File2 : Name := [Char.ofNat 98]

/-- Build data of the first contract named `"C"`. -/
def c10Data1 : ContractData := ⟨1, 1, 1⟩

/-- Build data of the second contract named `"C"`. -/
def c10Data2 : ContractData := ⟨2, 2, 2⟩

/-- A compilation result in which two source files each define a contract
named `"C"` with different build data. -/
def c10Res : CompilationResult :=
  [(c10File1, [(c10NameC, c10Data1)]), (c10File2, [(c10NameC, c10Data2)])]

/-- Counterexample to claim C10 as stated: the dot-free contract `"C"` of
source file `"a"` has build data with `abi = 1`, yet after `compile_all`
succeeds on a result where a later file also defines `"C"`,
`get_contract_data "C"` returns the later file's fields `(2, 2)` — the later
write overwrote `build/C.json`. -/
theorem get_contract_data_shadowed_by_duplicate_name :
    buildWrites c10Res = .ok [(c10NameC, c10Data1), (c10NameC, c10Data2)] ∧
    (c10File1, [(c10NameC, c10Data1)]) ∈ c10Res ∧
    (c10NameC, c10Data1) ∈ [(c10NameC, c10Data1)] ∧
    stem c10NameC = c10NameC ∧
    RootChainDeployer.get_contract_data c10NameC
        [(c10NameC, c10Data1), (c10NameC, c10Data2)]
      = some (2, 2) ∧
    (2, 2) ≠ (c10Data1.abi, c10Data1.bytecodeObject) := by
  refine ⟨rfl, by decide, by decide, by decide, rfl, by decide⟩

/-- Concrete instance of amended claim C10: with a single dot-free contract
name the build file read back matches what the compiler produced. -/
theorem compile_all_roundtrips_unique_names_witness :
    RootChainDeployer.compile_all (fun x => x) (fun _ b => b)
        (fun _ _ => [(c10File1, [(c10NameC, c10Data1)])]) [] []
      = .ok [(c10NameC, c10Data1)] ∧
    RootChainDeployer.get_contract_data c10NameC [(c10NameC, c10Data1)]
      = some (1, 1) := by
  have h := compile_all_roundtrips_unique_names (fun x => x) (fun _ b => b)
    (fun _ _ => [(c10File1, [(c10NameC, c10Data1)])]) [] []
    [(c10File1, [(c10NameC, c10Data1)])] c10File1 c10NameC
    [(c10NameC, c10Data1)] c10Data1
    rfl (by decide) (by decide) (by decide) (by decide)
  exact ⟨h.1, h.2⟩
